import Mathlib

/-!
Verification of the Peloton sort-merge join executor
(`src/backend/executor/merge_join_executor.cpp`) and the tuple
transformer bridge (`src/backend/bridge/dml/tuple/tuple_transformer.cpp`),
via a shallow embedding of both translation units.

The expression subsystem is an external collaborator: the join core only
uses `Evaluate` (pure) and `Compare` (three-way result as a signed
integer), so expressions are embedded as Lean functions from container
tuples to comparable values, and comparable values as `Int`.
-/

namespace MergeJoin

/-- A comparable value produced by expression evaluation
(`peloton::Value` restricted to its ordering interface). -/
abbrev Value := Int

/-- `Value::Compare`: negative when the first value is smaller, positive
when larger, zero when equal. -/
def compareValue (a b : Value) : Int :=
  if a < b then -1 else if b < a then 1 else 0

/-- `Value::IsFalse`, used on evaluated predicate results; a boolean
false is represented by `0`. -/
def valueIsFalse (v : Value) : Bool :=
  v == 0

/-- One entry of `LogicalTile::schema` (`LogicalTile::ColumnInfo`):
which position list feeds the column and which base tile column it
resolves to. -/
structure ColumnInfo where
  positionListIdx : Nat
  baseTileIdx : Nat
  originColumnId : Nat
deriving DecidableEq, Repr

/-- A logical tile: schema, per-column position lists, and the visible
tuple count (`GetTupleCount`). -/
structure LogicalTile where
  schema : List ColumnInfo
  positionLists : List (List Nat)
  rows : Nat
deriving DecidableEq, Repr

/-- `expression::ContainerTuple<LogicalTile>`: a tile together with a
row index into it. -/
structure ContainerTuple where
  tile : LogicalTile
  row : Nat

/-- An expression tree's `Evaluate` interface: a pure function of the
two tuple contexts it is handed. -/
abbrev Expr := ContainerTuple → ContainerTuple → Value

/-- One join clause: a pair of expressions (`left_`, `right_`). -/
structure JoinClause where
  left : Expr
  right : Expr

/-- The executor configuration fixed by `DInit`: the join clause list
and the optional join predicate (`predicate_`; `none` means no
filter). -/
structure MergeJoinConfig where
  joinClause : List JoinClause
  predicate : Option Expr

/-- `clause.left_` or `clause.right_` as selected by `is_left` in
`Advance`. -/
def sideExpr (c : JoinClause) (isLeft : Bool) : Expr :=
  if isLeft then c.left else c.right

/-- The inner clause loop of `Advance`: evaluates each clause's selected
expression on `this_row` and `end_row` and reports whether some clause
compares unequal (the source breaks at the first nonzero `Compare`). -/
def advanceClauseScan (cls : List JoinClause) (tile : LogicalTile)
    (isLeft : Bool) (thisRow endRow : Nat) : Bool :=
  cls.any fun c =>
    let e := sideExpr c isLeft
    compareValue (e ⟨tile, thisRow⟩ ⟨tile, thisRow⟩)
      (e ⟨tile, endRow⟩ ⟨tile, endRow⟩) != 0

/-- The `while (end_row < tuple_count)` loop of `Advance`, with a
structural iteration bound (the loop runs at most `tuple_count` times,
so `Advance` passes `tuple_count` as the bound). In the source, the
`break` on an unequal clause exits only the clause for-loop, so the
comparison outcome `_diff` never affects the while loop: `end_row` is
incremented on every iteration and `this_row` is then set to
`end_row`. -/
def advanceLoop (cls : List JoinClause) (tile : LogicalTile)
    (isLeft : Bool) : Nat → Nat → Nat → Nat → Nat
  | 0, _thisRow, endRow, _tupleCount => endRow
  | bound + 1, thisRow, endRow, tupleCount =>
    if endRow < tupleCount then
      let _diff := advanceClauseScan cls tile isLeft thisRow endRow
      advanceLoop cls tile isLeft bound (endRow + 1) (endRow + 1) tupleCount
    else endRow

/-- `MergeJoinExecutor::Advance(tile, start_row, is_left)`. -/
def Advance (cls : List JoinClause) (tile : LogicalTile)
    (startRow : Nat) (isLeft : Bool) : Nat :=
  let tupleCount := tile.rows
  if startRow ≥ tupleCount then startRow
  else advanceLoop cls tile isLeft tupleCount startRow (startRow + 1) tupleCount

theorem advanceLoop_eq_of_le (cls : List JoinClause) (tile : LogicalTile)
    (isLeft : Bool) :
    ∀ bound thisRow endRow tupleCount, tupleCount - endRow ≤ bound →
      endRow ≤ tupleCount →
      advanceLoop cls tile isLeft bound thisRow endRow tupleCount = tupleCount := by
  intro bound
  induction bound with
  | zero =>
    intro thisRow endRow tupleCount hn hle
    unfold advanceLoop
    omega
  | succ k ih =>
    intro thisRow endRow tupleCount hn hle
    unfold advanceLoop
    by_cases hlt : endRow < tupleCount
    · simp only [hlt, if_true]
      exact ih (endRow + 1) (endRow + 1) tupleCount (by omega) (by omega)
    · simp only [hlt, if_false]
      omega

/-- Whenever the start row is inside the tile, `Advance` runs to the
tile boundary regardless of the clause comparisons. -/
theorem advance_eq_rows (cls : List JoinClause) (tile : LogicalTile)
    (startRow : Nat) (isLeft : Bool) (h : startRow < tile.rows) :
    Advance cls tile startRow isLeft = tile.rows := by
  unfold Advance
  have hnge : ¬ startRow ≥ tile.rows := by omega
  simp only [hnge, if_false]
  exact advanceLoop_eq_of_le cls tile isLeft tile.rows
    startRow (startRow + 1) tile.rows (by omega) (by omega)

/-- The first nonzero result of `left_value.Compare(right_value)` over
the clause list in declared order (`nullptr` context dropped: it is
unused by the pure expressions). The source breaks out of the clause
loop at the first clause whose comparison is nonzero. -/
def firstClauseDiff (cls : List JoinClause)
    (leftTuple rightTuple : ContainerTuple) : Option Int :=
  match cls with
  | [] => none
  | c :: rest =>
    let ret := compareValue (c.left leftTuple rightTuple)
      (c.right leftTuple rightTuple)
    if ret ≠ 0 then some ret else firstClauseDiff rest leftTuple rightTuple

/-- The innermost pair of column loops of the cartesian expansion: push
the left row's position-list entries onto the first `left` block of
output columns and the right row's entries onto the following block. -/
def pushPair (leftPL rightPL : List (List Nat)) (li ri : Nat)
    (out : List (List Nat)) : List (List Nat) :=
  List.zipWith (fun col v => col ++ [v]) out
    (leftPL.map (fun c => c.getD li 0) ++ rightPL.map (fun c => c.getD ri 0))

/-- The two row loops of the cartesian expansion (lines 187-210):
left-row-major, right-row-minor over `[ls, le) × [rs, re)`. -/
def cartesianExpand (leftPL rightPL : List (List Nat))
    (ls le rs re : Nat) (out : List (List Nat)) : List (List Nat) :=
  (List.range' ls (le - ls)).foldl
    (fun acc li =>
      (List.range' rs (re - rs)).foldl
        (fun acc2 ri => pushPair leftPL rightPL li ri acc2) acc)
    out

/-- The mutable state of `DExecute`'s scan loop: the two group
boundaries and the output position lists under construction. -/
structure ScanState where
  leftStart : Nat
  leftEnd : Nat
  rightStart : Nat
  rightEnd : Nat
  positionLists : List (List Nat)
deriving DecidableEq, Repr

/-- One iteration of the `while` body of `DExecute` (lines 134-217).
The source declares `bool equal = false;` and only ever reassigns it to
`false` before each `break`, so after the clause loop `equal` is false
on every path and `if (!equal) continue;` always fires; the matched
branch below (predicate check, cartesian expansion, advancing both
groups) is kept as written in the source. -/
def scanBody (cfg : MergeJoinConfig) (lt rt : LogicalTile)
    (s : ScanState) : ScanState :=
  let leftTuple : ContainerTuple := ⟨lt, s.leftStart⟩
  let rightTuple : ContainerTuple := ⟨rt, s.rightStart⟩
  let step : ScanState × Bool :=
    match firstClauseDiff cfg.joinClause leftTuple rightTuple with
    | some ret =>
      if ret < 0 then
        ({ s with leftStart := s.leftEnd,
                  leftEnd := Advance cfg.joinClause lt s.leftEnd true }, false)
      else
        ({ s with rightStart := s.rightEnd,
                  rightEnd := Advance cfg.joinClause rt s.rightEnd false }, false)
    | none => (s, false)
  let s1 := step.1
  if !step.2 then s1
  else
    let s2 :=
      match cfg.predicate with
      | some p =>
        if valueIsFalse (p leftTuple rightTuple) then
          let sl := { s1 with leftStart := s1.leftEnd,
                              leftEnd := Advance cfg.joinClause lt s1.leftEnd true }
          { sl with rightStart := sl.rightEnd,
                    rightEnd := Advance cfg.joinClause rt sl.rightEnd false }
        else s1
      | none => s1
    let s3 := { s2 with positionLists :=
      (cartesianExpand lt.positionLists rt.positionLists
        s2.leftStart s2.leftEnd s2.rightStart s2.rightEnd s2.positionLists) }
    let s4 := { s3 with leftStart := s3.leftEnd,
                        leftEnd := Advance cfg.joinClause lt s3.leftEnd true }
    { s4 with rightStart := s4.rightEnd,
              rightEnd := Advance cfg.joinClause rt s4.rightEnd false }

/-- The scan loop
`while (left_end_row > left_start_row && right_end_row > right_start_row)`;
`fuel` bounds the number of iterations and `none` marks a run that did
not terminate within the given fuel. -/
def scanLoop (cfg : MergeJoinConfig) (lt rt : LogicalTile) :
    Nat → ScanState → Option ScanState
  | 0, _ => none
  | fuel + 1, s =>
    if s.leftStart < s.leftEnd ∧ s.rightStart < s.rightEnd then
      scanLoop cfg lt rt fuel (scanBody cfg lt rt s)
    else some s

/-- Modelled from the spec: `BuildSchema` lives in the shared
abstract-join base outside the excerpted sources; per sections 4.1 and
6 it is the pure concatenation producing the left columns followed by
the right columns (the caller shifts the right indices first). -/
def BuildSchema (l r : List ColumnInfo) : List ColumnInfo :=
  l ++ r

/-- The output schema built by `DExecute` (lines 83-88): each right
column's `position_list_idx` is first incremented by the size of the
left tile's position-list vector, then `BuildSchema` combines the two
schemas. -/
def outputSchema (lt rt : LogicalTile) : List ColumnInfo :=
  BuildSchema lt.schema
    (rt.schema.map fun col =>
      { col with positionListIdx :=
          col.positionListIdx + lt.positionLists.length })

/-- The output logical tile handed to `SetOutput`: the built schema and
the accumulated position lists. -/
structure OutputTile where
  schema : List ColumnInfo
  positionLists : List (List Nat)
deriving DecidableEq, Repr

/-- The observable outcome of one `DExecute` call: its boolean return
value, the tile passed to `SetOutput` (if any), and the tiles each
child still holds. -/
structure DRun where
  ret : Bool
  output : Option OutputTile
  leftRest : List LogicalTile
  rightRest : List LogicalTile
deriving DecidableEq, Repr

/-- `MergeJoinExecutor::DExecute` over finite child streams (each child
modelled as the list of tiles it will yield). The right child is pulled
first; its exhaustion returns `false`, as does the left child's. After
the scan, an empty result triggers the source's recursive
`DExecute();` retry whose return value is discarded before
`return true;` (lines 233-241). `none` marks a scan loop that did not
terminate within `fuel`. -/
def dexecute (cfg : MergeJoinConfig) (fuel : Nat) :
    List LogicalTile → List LogicalTile → Option DRun
  | lstream, [] => some ⟨false, none, lstream, []⟩
  | [], _ :: rrest => some ⟨false, none, [], rrest⟩
  | lt :: lrest, rt :: rrest =>
    match scanLoop cfg lt rt fuel
        { leftStart := 0, leftEnd := Advance cfg.joinClause lt 0 true,
          rightStart := 0, rightEnd := Advance cfg.joinClause rt 0 false,
          positionLists :=
            List.replicate
              (lt.positionLists.length + rt.positionLists.length) [] } with
    | none => none
    | some s =>
      if 0 < (s.positionLists.headD []).length then
        some ⟨true, some ⟨outputSchema lt rt, s.positionLists⟩, lrest, rrest⟩
      else
        match dexecute cfg fuel lrest rrest with
        | none => none
        | some r => some ⟨true, r.output, r.leftRest, r.rightRest⟩

/-- `MergeJoinExecutor::DInit`: propagate the base initializer's
status and store the plan node's clause list; no validation of the
clause list takes place. -/
def DInit (parentStatus : Bool) (nodeClauses : List JoinClause) :
    Bool × List JoinClause :=
  if parentStatus = false then (false, [])
  else (true, nodeClauses)

theorem scanBody_positionLists (cfg : MergeJoinConfig)
    (lt rt : LogicalTile) (s : ScanState) :
    (scanBody cfg lt rt s).positionLists = s.positionLists := by
  unfold scanBody
  cases h : firstClauseDiff cfg.joinClause ⟨lt, s.leftStart⟩ ⟨rt, s.rightStart⟩ with
  | none => simp [h]
  | some ret =>
    by_cases hr : ret < 0 <;> simp [h, hr]

theorem scanBody_of_no_diff (cfg : MergeJoinConfig)
    (lt rt : LogicalTile) (s : ScanState)
    (h : firstClauseDiff cfg.joinClause ⟨lt, s.leftStart⟩ ⟨rt, s.rightStart⟩
      = none) :
    scanBody cfg lt rt s = s := by
  unfold scanBody
  simp [h]

theorem scanLoop_positionLists (cfg : MergeJoinConfig)
    (lt rt : LogicalTile) :
    ∀ fuel s s2, scanLoop cfg lt rt fuel s = some s2 →
      s2.positionLists = s.positionLists := by
  intro fuel
  induction fuel with
  | zero => intro s s2 h; cases h
  | succ k ih =>
    intro s s2 h
    unfold scanLoop at h
    split at h
    · have h2 := ih _ _ h
      rw [h2, scanBody_positionLists]
    · cases h; rfl

theorem scanLoop_fix_none (cfg : MergeJoinConfig) (lt rt : LogicalTile)
    (s : ScanState)
    (hguard : s.leftStart < s.leftEnd ∧ s.rightStart < s.rightEnd)
    (hfix : scanBody cfg lt rt s = s) :
    ∀ fuel, scanLoop cfg lt rt fuel s = none := by
  intro fuel
  induction fuel with
  | zero => rfl
  | succ k ih =>
    unfold scanLoop
    rw [if_pos hguard, hfix]
    exact ih

/-- A test expression reading a key column on the left side: the base
storage behind the tile assigns row `i` the key `keys[i]`. -/
def leftKeyExpr (keys : List Int) : Expr :=
  fun lctx _rctx => keys.getD lctx.row 0

/-- A test expression reading a key column on the right side. -/
def rightKeyExpr (keys : List Int) : Expr :=
  fun _lctx rctx => keys.getD rctx.row 0

/-- A single-column logical tile whose position list is `ids`. -/
def oneColTile (ids : List Nat) : LogicalTile :=
  { schema := [⟨0, 0, 0⟩], positionLists := [ids], rows := ids.length }

/-- Scenario A left input: three rows keyed `[1, 1, 2]`. -/
def leftTileA : LogicalTile := oneColTile [0, 1, 2]

/-- Scenario A right input: three rows keyed `[1, 2, 2]`. -/
def rightTileA : LogicalTile := oneColTile [0, 1, 2]

/-- The single equality clause of Scenario A. -/
def clauseA : JoinClause :=
  ⟨leftKeyExpr [1, 1, 2], rightKeyExpr [1, 2, 2]⟩

/-- Scenario A configuration: one clause, no predicate. -/
def cfgA : MergeJoinConfig := ⟨[clauseA], none⟩

/-- Scenario C predicate: false (evaluates to `0`) exactly on rows of
the key-1 group of the left side. -/
def predC : Expr :=
  fun lctx _rctx => if ([1, 1, 2] : List Int).getD lctx.row 0 = 1 then 0 else 1

/-- Scenario C configuration: Scenario A plus the group predicate. -/
def cfgC : MergeJoinConfig := ⟨[clauseA], some predC⟩

/-- Scenario B left input: two rows keyed `[1, 2]`. -/
def leftTileB : LogicalTile := oneColTile [0, 1]

/-- Scenario B right input: two rows keyed `[3, 4]`. -/
def rightTileB : LogicalTile := oneColTile [0, 1]

/-- The single equality clause of Scenario B (no common key values). -/
def clauseB : JoinClause :=
  ⟨leftKeyExpr [1, 2], rightKeyExpr [3, 4]⟩

/-- Scenario B configuration. -/
def cfgB : MergeJoinConfig := ⟨[clauseB], none⟩

/-- A two-row tile whose key column holds `[1, 2]` on both clause
sides: the key changes between row 0 and row 1. -/
def twoKeyTile : LogicalTile := oneColTile [0, 1]

/-- The clause observing the `[1, 2]` key column of `twoKeyTile`. -/
def clause12 : JoinClause :=
  ⟨leftKeyExpr [1, 2], rightKeyExpr [1, 2]⟩

/-- A configuration with zero join clauses and no predicate. -/
def cfgNoClauses : MergeJoinConfig := ⟨[], none⟩

/-- A one-row single-column tile. -/
def unitTile : LogicalTile := oneColTile [0]

theorem headD_replicate_nil (n : Nat) :
    (List.replicate n ([] : List Nat)).headD [] = [] := by
  cases n <;> simp [List.replicate_succ]

/-- C1: the claim says `Advance` returns the exclusive end of the
equal-key run at `start_row`. It is false on the code: the `break` on
an unequal clause only exits the clause loop, so the scan runs to the
tile boundary. Here the keys of rows 0 and 1 compare unequal, yet
`Advance` from row 0 returns 2 (the tuple count) instead of 1. -/
theorem advance_scans_past_key_change :
    compareValue (sideExpr clause12 true ⟨twoKeyTile, 0⟩ ⟨twoKeyTile, 0⟩)
        (sideExpr clause12 true ⟨twoKeyTile, 1⟩ ⟨twoKeyTile, 1⟩) ≠ 0 ∧
    Advance [clause12] twoKeyTile 0 true = 2 := by
  decide

/-- C8: if `start_row` is at or past the tuple count, `Advance`
returns `start_row` unchanged (the empty group signalling
exhaustion). -/
theorem advance_exhausted_returns_start (cls : List JoinClause)
    (tile : LogicalTile) (startRow : Nat) (isLeft : Bool)
    (h : tile.rows ≤ startRow) :
    Advance cls tile startRow isLeft = startRow := by
  unfold Advance
  simp [ge_iff_le, h]

/-- Witness for C8 at a concrete exhausted start row. -/
theorem advance_exhausted_returns_start_witness :
    Advance [clause12] twoKeyTile 7 false = 7 :=
  advance_exhausted_returns_start [clause12] twoKeyTile 7 false (by decide)

/-- C2: the claim says Scenario A (left keys `[1,1,2]`, right keys
`[1,2,2]`, one equality clause, no predicate) yields a 4-row output
tile with position lists `[0,1,2,2]` and `[0,0,1,2]`. It is false on
the code: `equal` is initialised `false` and never set `true`, so
`if (!equal) continue;` always fires; once the two anchor rows compare
equal on every clause no group advances and the scan loop never
terminates — for every iteration bound, `DExecute` fails to finish. -/
theorem dexecute_scenarioA_never_terminates (fuel : Nat) :
    dexecute cfgA fuel [leftTileA] [rightTileA] = none := by
  simp only [dexecute]
  rw [scanLoop_fix_none cfgA leftTileA rightTileA _ (by decide) (by decide)]

/-- C3: the claim says a predicate false on a matched key-group's
anchor rows suppresses that group while later groups still expand. It
is false on the code: the predicate test sits in the matched branch,
which is unreachable (`equal` is never set `true`), so on Scenario C
the scan loop spins forever on the key-1 anchors without ever
evaluating the predicate. -/
theorem dexecute_scenarioC_never_terminates (fuel : Nat) :
    dexecute cfgC fuel [leftTileA] [rightTileA] = none := by
  simp only [dexecute]
  rw [scanLoop_fix_none cfgC leftTileA rightTileA _ (by decide) (by decide)]

/-- C4: the claim says that on key-disjoint inputs the operator
reports exhaustion after a bounded retry loop. It is false on the
code: the retry is a recursive `DExecute()` whose result is discarded;
on Scenario B the scan finds no match, the retry hits the exhausted
right child and returns `false`, and the outer call still returns
`true` with no output tile installed. -/
theorem dexecute_disjoint_keys_true_without_output :
    dexecute cfgB 5 [leftTileB] [rightTileB] = some ⟨true, none, [], []⟩ := by
  decide

/-- C5: the claim says zero configured join clauses fail fast with a
configuration error. It is false on the code: `DInit` stores the empty
clause list and reports success, and with no clause ever breaking the
tie the scan loop neither advances a side nor reaches the emission
code, so `DExecute` never terminates on any pair of non-empty tiles. -/
theorem dinit_accepts_zero_clauses_and_scan_diverges :
    DInit true [] = (true, []) ∧
    ∀ fuel, dexecute cfgNoClauses fuel [unitTile] [unitTile] = none := by
  refine ⟨rfl, fun fuel => ?_⟩
  simp only [dexecute]
  rw [scanLoop_fix_none cfgNoClauses unitTile unitTile _ (by decide) (by decide)]

/-- C6: the output schema is the left tile's columns followed by the
right tile's columns, each right column's position-list index raised
by exactly the left tile's position-list count; the operation reads
only the two schemas and the left position-list count. -/
theorem outputSchema_concat_shift (lt rt : LogicalTile) (i j : Nat)
    (hi : i < lt.schema.length) :
    (outputSchema lt rt).length = lt.schema.length + rt.schema.length ∧
    (outputSchema lt rt)[i]? = lt.schema[i]? ∧
    (outputSchema lt rt)[lt.schema.length + j]? =
      (rt.schema[j]?).map (fun col =>
        { col with positionListIdx :=
            col.positionListIdx + lt.positionLists.length }) := by
  unfold outputSchema BuildSchema
  refine ⟨by simp, ?_, ?_⟩
  · rw [List.getElem?_append, if_pos hi]
  · rw [List.getElem?_append_right (by omega)]
    rw [List.getElem?_map]
    simp

/-- Witness for C6 on concrete single-column tiles. -/
theorem outputSchema_concat_shift_witness :
    (outputSchema leftTileA rightTileA).length =
        leftTileA.schema.length + rightTileA.schema.length ∧
    (outputSchema leftTileA rightTileA)[0]? = leftTileA.schema[0]? ∧
    (outputSchema leftTileA rightTileA)[leftTileA.schema.length + 0]? =
      (rightTileA.schema[0]?).map (fun col =>
        { col with positionListIdx :=
            col.positionListIdx + leftTileA.positionLists.length }) :=
  outputSchema_concat_shift leftTileA rightTileA 0 0 (by decide)

/-- C7: the claim quantifies over the output tiles `DExecute` hands to
its consumer. On the code that set is empty: the emission code is
unreachable (`equal` is never `true`), so the accumulated position
lists stay empty, the `position_lists[0].size() > 0` test never
passes, and no terminating run ever installs an output tile. -/
theorem dexecute_never_sets_output (cfg : MergeJoinConfig) (fuel : Nat) :
    ∀ (ls rs : List LogicalTile) (r : DRun),
      dexecute cfg fuel ls rs = some r → r.output = none := by
  intro ls rs
  induction rs generalizing ls with
  | nil =>
    intro r h
    simp only [dexecute] at h
    cases h
    rfl
  | cons rt rrest ih =>
    intro r h
    cases ls with
    | nil =>
      simp only [dexecute] at h
      cases h
      rfl
    | cons lt lrest =>
      simp only [dexecute] at h
      split at h
      · exact absurd h (by simp)
      · next s hscan =>
        have hpl := scanLoop_positionLists cfg lt rt fuel _ _ hscan
        split at h
        · next hpos =>
          rw [hpl, headD_replicate_nil] at hpos
          simp at hpos
        · split at h
          · exact absurd h (by simp)
          · next r2 hrec =>
            cases h
            exact ih lrest r2 hrec

/-- Witness for C7: a concrete terminating run, which indeed installs
no output tile. -/
theorem dexecute_never_sets_output_witness :
    (⟨true, none, [], []⟩ : DRun).output = none :=
  dexecute_never_sets_output cfgB 5 [leftTileB] [rightTileB]
    ⟨true, none, [], []⟩ (by decide)

end MergeJoin

namespace TupleTransformer

/-- Peloton `Value` restricted to the variants the tuple transformer
handles; the double payload is kept abstract as its 64-bit pattern and
`invalid` is the default-constructed `Value`. -/
inductive PValue where
  | smallint (x : Int)
  | integer (x : Int)
  | bigint (x : Int)
  | double (bits : Nat)
  | varchar (s : String)
  | timestamp (x : Int)
  | invalid
deriving DecidableEq, Repr

/-- A Postgres `Datum` (a 64-bit word that either holds a by-value
scalar or points at allocated storage); a varlena allocation is
abstracted by its payload. -/
inductive Datum where
  | word (bits : Nat)
  | varlenaPtr (s : String)
  | float8 (bits : Nat)
  | nullPtr
deriving DecidableEq, Repr

/-- The two's-complement 64-bit word of an integer (the effect of
casting a signed C integer to the unsigned `Datum`). -/
def toUnsigned64 (x : Int) : Nat :=
  (x % (2 ^ 64 : Int)).toNat

/-- Reading back a `w`-bit signed integer from the low `w` bits of a
word (the effect of the C truncating cast in `DatumGetIntN`). -/
def toSigned (w : Nat) (n : Nat) : Int :=
  let m := n % 2 ^ w
  if m < 2 ^ (w - 1) then (m : Int) else (m : Int) - (2 ^ w : Int)

/-- The raw word of a by-value datum. Reading integer bits out of a
pointer datum would reinterpret the pointer; no claim exercises that,
and the model maps it to `0`. -/
def datumWord : Datum → Nat
  | .word b => b
  | .float8 b => b
  | .varlenaPtr _ => 0
  | .nullPtr => 0

/-- `DatumGetInt16`. -/
def DatumGetInt16 (d : Datum) : Int := toSigned 16 (datumWord d)

/-- `DatumGetInt32`. -/
def DatumGetInt32 (d : Datum) : Int := toSigned 32 (datumWord d)

/-- `DatumGetInt64`. -/
def DatumGetInt64 (d : Datum) : Int := toSigned 64 (datumWord d)

/-- `Int16GetDatum`. -/
def Int16GetDatum (x : Int) : Datum := .word (toUnsigned64 x)

/-- `Int32GetDatum`. -/
def Int32GetDatum (x : Int) : Datum := .word (toUnsigned64 x)

/-- `Int64GetDatum`. -/
def Int64GetDatum (x : Int) : Datum := .word (toUnsigned64 x)

/-- `Float8GetDatum` with the float kept as its bit pattern. -/
def Float8GetDatum (bits : Nat) : Datum := .float8 bits

/-- The payload behind a varlena datum (`VARDATA`/`VARSIZE` reading,
header elided). -/
def varlenaString : Datum → String
  | .varlenaPtr s => s
  | _ => ""

/-- Postgres type oid for `smallint`. -/
def POSTGRES_VALUE_TYPE_SMALLINT : Nat := 21

/-- Postgres type oid for `integer`. -/
def POSTGRES_VALUE_TYPE_INTEGER : Nat := 23

/-- Postgres type oid for `bigint`. -/
def POSTGRES_VALUE_TYPE_BIGINT : Nat := 20

/-- Postgres type oid for `bpchar`. -/
def POSTGRES_VALUE_TYPE_BPCHAR : Nat := 1042

/-- Postgres type oid for `varchar`. -/
def POSTGRES_VALUE_TYPE_VARCHAR2 : Nat := 1043

/-- Postgres type oid for `text`. -/
def POSTGRES_VALUE_TYPE_TEXT : Nat := 25

/-- Postgres type oid for `timestamp`. -/
def POSTGRES_VALUE_TYPE_TIMESTAMPS : Nat := 1114

/-- `TupleTransformer::GetValue(datum, atttypid)`: the switch over the
Postgres attribute type id; an unknown type id leaves the
default-constructed `Value`. -/
def GetValue (datum : Datum) (atttypid : Nat) : PValue :=
  if atttypid = POSTGRES_VALUE_TYPE_SMALLINT then
    PValue.smallint (DatumGetInt16 datum)
  else if atttypid = POSTGRES_VALUE_TYPE_INTEGER then
    PValue.integer (DatumGetInt32 datum)
  else if atttypid = POSTGRES_VALUE_TYPE_BIGINT then
    PValue.bigint (DatumGetInt64 datum)
  else if atttypid = POSTGRES_VALUE_TYPE_BPCHAR then
    PValue.varchar (varlenaString datum)
  else if atttypid = POSTGRES_VALUE_TYPE_VARCHAR2 then
    PValue.varchar (varlenaString datum)
  else if atttypid = POSTGRES_VALUE_TYPE_TEXT then
    PValue.varchar (varlenaString datum)
  else if atttypid = POSTGRES_VALUE_TYPE_TIMESTAMPS then
    PValue.timestamp (DatumGetInt64 datum)
  else
    PValue.invalid

/-- `TupleTransformer::GetDatum(value)`: the switch over the Peloton
value type; the varchar case allocates a varlena holding the string
payload, and an unrecognized type yields `PointerGetDatum(nullptr)`. -/
def GetDatum (value : PValue) : Datum :=
  match value with
  | .smallint x => Int16GetDatum x
  | .integer x => Int32GetDatum x
  | .bigint x => Int64GetDatum x
  | .double bits => Float8GetDatum bits
  | .varchar s => Datum.varlenaPtr s
  | .timestamp x => Int64GetDatum x
  | .invalid => Datum.nullPtr

/-- A Peloton tuple as the ordered list of its column values
(`GetColumnCount` is the list length). -/
structure PelotonTuple where
  values : List PValue
deriving DecidableEq, Repr

/-- `Value::IsNull` as consulted through `tuple->IsNull`: only the
default-constructed value is null in this model. -/
def PValue.isNull : PValue → Bool
  | .invalid => true
  | _ => false

/-- One `pg_attribute` entry of a tuple descriptor. -/
structure AttrInfo where
  atttypid : Nat
  attlen : Int
  attbyval : Bool
deriving DecidableEq, Repr

/-- A Postgres tuple descriptor. -/
structure TupleDesc where
  natts : Nat
  attrs : List AttrInfo
deriving DecidableEq, Repr

/-- The observable content of the slot built by `heap_form_tuple` /
`MakeSingleTupleTableSlot` / `ExecStoreTuple` (external Postgres
routines): the descriptor and the stored datum and null arrays. -/
structure TupleTableSlot where
  desc : TupleDesc
  datums : List Datum
  nulls : List Bool
deriving DecidableEq, Repr

/-- `TupleTransformer::GetPostgresTuple(tuple, tuple_desc)`: `none` is
the `nullptr` return. The count check precedes every allocation; on
success each attribute's value is converted with `GetDatum` and the
slot stores the datum and null arrays (the varlena cleanup after
`heap_form_tuple`'s deep copy has no observable effect). -/
def GetPostgresTuple (tuple : PelotonTuple) (tupleDesc : TupleDesc) :
    Option TupleTableSlot :=
  if tuple.values.length ≠ tupleDesc.natts then none
  else
    some { desc := tupleDesc,
           datums := tuple.values.map GetDatum,
           nulls := tuple.values.map PValue.isNull }

theorem toSigned_toUnsigned64_16 (x : Int)
    (h1 : -(2 ^ 15) ≤ x) (h2 : x < 2 ^ 15) :
    toSigned 16 (toUnsigned64 x) = x := by
  unfold toSigned toUnsigned64
  norm_num
  split <;> omega

theorem toSigned_toUnsigned64_32 (x : Int)
    (h1 : -(2 ^ 31) ≤ x) (h2 : x < 2 ^ 31) :
    toSigned 32 (toUnsigned64 x) = x := by
  unfold toSigned toUnsigned64
  norm_num
  split <;> omega

theorem toSigned_toUnsigned64_64 (x : Int)
    (h1 : -(2 ^ 63) ≤ x) (h2 : x < 2 ^ 63) :
    toSigned 64 (toUnsigned64 x) = x := by
  unfold toSigned toUnsigned64
  norm_num
  split <;> omega

/-- C9: whenever the Peloton tuple's column count differs from the
descriptor's attribute count, `GetPostgresTuple` returns the null
pointer before building any slot. -/
theorem getPostgresTuple_count_mismatch_none (tuple : PelotonTuple)
    (tupleDesc : TupleDesc) (h : tuple.values.length ≠ tupleDesc.natts) :
    GetPostgresTuple tuple tupleDesc = none := by
  unfold GetPostgresTuple
  simp [h]

/-- Witness for C9: a one-column tuple against a two-attribute
descriptor. -/
theorem getPostgresTuple_count_mismatch_none_witness :
    GetPostgresTuple ⟨[PValue.smallint 1]⟩ ⟨2, []⟩ = none :=
  getPostgresTuple_count_mismatch_none ⟨[PValue.smallint 1]⟩ ⟨2, []⟩
    (by decide)

/-- C10: on smallint, integer and bigint values within their C type
ranges, converting to a `Datum` with `GetDatum` and back with
`GetValue` at the corresponding Postgres type id returns the original
value. -/
theorem datum_value_int_roundtrip (x : Int) :
    (-(2 ^ 15) ≤ x → x < 2 ^ 15 →
      GetValue (GetDatum (PValue.smallint x)) POSTGRES_VALUE_TYPE_SMALLINT
        = PValue.smallint x) ∧
    (-(2 ^ 31) ≤ x → x < 2 ^ 31 →
      GetValue (GetDatum (PValue.integer x)) POSTGRES_VALUE_TYPE_INTEGER
        = PValue.integer x) ∧
    (-(2 ^ 63) ≤ x → x < 2 ^ 63 →
      GetValue (GetDatum (PValue.bigint x)) POSTGRES_VALUE_TYPE_BIGINT
        = PValue.bigint x) := by
  refine ⟨fun h1 h2 => ?_, fun h1 h2 => ?_, fun h1 h2 => ?_⟩
  · simp only [GetValue, GetDatum, Int16GetDatum, DatumGetInt16, datumWord,
      POSTGRES_VALUE_TYPE_SMALLINT, if_pos]
    rw [toSigned_toUnsigned64_16 x h1 h2]
  · simp only [GetValue, GetDatum, Int32GetDatum, DatumGetInt32, datumWord,
      POSTGRES_VALUE_TYPE_SMALLINT, POSTGRES_VALUE_TYPE_INTEGER]
    norm_num
    rw [toSigned_toUnsigned64_32 x h1 h2]
  · simp only [GetValue, GetDatum, Int64GetDatum, DatumGetInt64, datumWord,
      POSTGRES_VALUE_TYPE_SMALLINT, POSTGRES_VALUE_TYPE_INTEGER,
      POSTGRES_VALUE_TYPE_BIGINT]
    norm_num
    rw [toSigned_toUnsigned64_64 x h1 h2]

/-- Witness for C10 at a concrete negative value in all three
ranges. -/
theorem datum_value_int_roundtrip_witness :
    GetValue (GetDatum (PValue.smallint (-5))) POSTGRES_VALUE_TYPE_SMALLINT
        = PValue.smallint (-5) ∧
    GetValue (GetDatum (PValue.integer (-5))) POSTGRES_VALUE_TYPE_INTEGER
        = PValue.integer (-5) ∧
    GetValue (GetDatum (PValue.bigint (-5))) POSTGRES_VALUE_TYPE_BIGINT
        = PValue.bigint (-5) :=
  ⟨(datum_value_int_roundtrip (-5)).1 (by norm_num) (by norm_num),
   (datum_value_int_roundtrip (-5)).2.1 (by norm_num) (by norm_num),
   (datum_value_int_roundtrip (-5)).2.2 (by norm_num) (by norm_num)⟩

end TupleTransformer
